import Mathlib

/-!
Formal model of the madmail protocol-conformance test toolkit: the hand-rolled
IMAP and SMTP test clients and the synthetic OpenPGP/MIME message builder found
in `tests/deltachat-test/scenarios/test_14_idle_notification.py` and
`tests/deltachat-test/scenarios/test_13_multirecipient.py`.

Bytes are modelled as `Nat` (Python `bytes` elements), byte strings as
`List Nat`, and the TCP stream seen by a client as an explicit list of
`recv` results.  Fallible operations return `Option`; `none` models a raised
exception (or, where noted, a loop that never terminates).  Wall-clock time
(for the IDLE machinery) is modelled as `ℚ`.
-/

namespace Madmail

/-- ASCII bytes of a string literal (`str.encode()` for ASCII data). -/
def strBytes (s : String) : List Nat := s.data.map Char.toNat

/-- Python whitespace bytes, as used by `str.split()` / `str.strip()`. -/
def isWs (c : Nat) : Bool := c == 9 || c == 10 || c == 11 || c == 12 || c == 13 || c == 32

/-- Split a byte string at the first CRLF: `buffer.split(b"\r\n", 1)` when
`b"\r\n" in buffer`, `none` otherwise.  Returns the bytes before the first
CRLF and the bytes after it. -/
def splitCRLF : List Nat → Option (List Nat × List Nat)
  | [] => none
  | [_] => none
  | c1 :: c2 :: rest =>
    if c1 = 13 ∧ c2 = 10 then some ([], rest)
    else (splitCRLF (c2 :: rest)).map (fun p => (c1 :: p.1, p.2))

/-- `IMAPClient._read_line`: blocking line read.  `buffer` is `self.buffer`,
`chunks` the successive results the socket's `recv` will deliver; an exhausted
list or an empty chunk models the peer having closed the stream
(`recv` returning `b""`), in which case the Python code raises
`RuntimeError("Connection closed")`, modelled by `none`. -/
def imapReadLine (buffer : List Nat) : List (List Nat) → Option (List Nat × List Nat × List (List Nat))
  | [] =>
    match splitCRLF buffer with
    | some (l, r) => some (l, r, [])
    | none => none
  | c :: cs =>
    match splitCRLF buffer with
    | some (l, r) => some (l, r, c :: cs)
    | none => if c = [] then none else imapReadLine (buffer ++ c) cs

/-- `SMTPClient._read_response`'s inner loop: accumulate single bytes until the
data ends with CRLF, or until the stream is exhausted (`recv` returning `b""`
breaks the loop with the partial data).  Returns the bytes taken (terminator
included when one was seen) and the bytes left in the stream. -/
def takeLineSMTP : List Nat → List Nat × List Nat
  | [] => ([], [])
  | [c] => ([c], [])
  | c1 :: c2 :: rest =>
    if c1 = 13 ∧ c2 = 10 then ([13, 10], rest)
    else
      let p := takeLineSMTP (c2 :: rest)
      (c1 :: p.1, p.2)

/-- Python `str.strip()` on a byte string: drop leading and trailing
whitespace. -/
def pyStrip (l : List Nat) : List Nat :=
  ((l.dropWhile isWs).reverse.dropWhile isWs).reverse

/-- The SMTP final-line test: `len(line) >= 4 and line[3] == ' '`. -/
def smtpFinal (line : List Nat) : Prop := 4 ≤ line.length ∧ line.get? 3 = some 32

instance (line : List Nat) : Decidable (smtpFinal line) := by
  unfold smtpFinal; infer_instance

/-- `SMTPClient._read_response`'s outer loop, fuelled (the fuel is an upper
bound on the number of iterations; the public wrapper `smtpReadResponse`
supplies `input.length + 1`, which is always sufficient because every
iteration on a nonempty stream consumes at least one byte).  Returns the
collected stripped lines and the unread rest of the stream; `none` models the
loop never terminating, which happens exactly when the stream is exhausted
before a final-looking line was collected (`recv` then returns `b""` forever
and the loop spins). -/
def smtpGo : Nat → List Nat → Option (List (List Nat) × List Nat)
  | _, [] => none
  | 0, _ :: _ => none
  | fuel + 1, c :: rest =>
    let p := takeLineSMTP (c :: rest)
    let line := pyStrip p.1
    if smtpFinal line then some ([line], p.2)
    else
      match smtpGo fuel p.2 with
      | none => none
      | some q => some (line :: q.1, q.2)

/-- `SMTPClient._read_response`: read lines until one has a space as its 4th
character; earlier lines are continuation lines.  `none` models an SMTP reply
that never completes (divergence of the Python loop). -/
def smtpReadResponse (input : List Nat) : Option (List (List Nat) × List Nat) :=
  smtpGo (input.length + 1) input

/-- Python `"\n".join(lines)` on byte strings. -/
def joinNl : List (List Nat) → List Nat
  | [] => []
  | [p] => p
  | p :: q :: rest => p ++ 10 :: joinNl (q :: rest)

/-- The base64 alphabet: 6-bit value to ASCII code (RFC 4648, as used by
Python's `base64.b64encode`). -/
def b64char (i : Nat) : Nat :=
  if i < 26 then 65 + i
  else if i < 52 then 97 + (i - 26)
  else if i < 62 then 48 + (i - 52)
  else if i = 62 then 43
  else 47

/-- Inverse of the base64 alphabet (characters outside the alphabet map to 0;
they never occur in well-formed input). -/
def b64val (c : Nat) : Nat :=
  if 65 ≤ c ∧ c ≤ 90 then c - 65
  else if 97 ≤ c ∧ c ≤ 122 then c - 97 + 26
  else if 48 ≤ c ∧ c ≤ 57 then c - 48 + 52
  else if c = 43 then 62
  else if c = 47 then 63
  else 0

/-- `base64.b64encode`: standard base64 with `=` padding (61 is the ASCII code
of `=`).  Three input bytes become four alphabet characters; a final group of
one or two bytes is padded. -/
def b64encode : List Nat → List Nat
  | [] => []
  | [b1] => [b64char (b1 / 4), b64char (b1 % 4 * 16), 61, 61]
  | [b1, b2] => [b64char (b1 / 4), b64char (b1 % 4 * 16 + b2 / 16), b64char (b2 % 16 * 4), 61]
  | b1 :: b2 :: b3 :: rest =>
    b64char (b1 / 4) :: b64char (b1 % 4 * 16 + b2 / 16) :: b64char (b2 % 16 * 4 + b3 / 64)
      :: b64char (b3 % 64) :: b64encode rest

/-- Modelled from the spec: `base64` decoding ("base64-decode" in the
un-armoring step); no decoder exists in the source.  Groups of four
characters are decoded to three bytes, with `=` padding cutting the final
group short. -/
def b64decode : List Nat → List Nat
  | c1 :: c2 :: c3 :: c4 :: rest =>
    if c3 = 61 then [b64val c1 * 4 + b64val c2 / 16]
    else if c4 = 61 then [b64val c1 * 4 + b64val c2 / 16, b64val c2 % 16 * 16 + b64val c3 / 4]
    else
      (b64val c1 * 4 + b64val c2 / 16) :: (b64val c2 % 16 * 16 + b64val c3 / 4)
        :: (b64val c3 % 4 * 64 + b64val c4) :: b64decode rest
  | _ => []

/-- The Python slicing loop `[s[i:i+64] for i in range(0, len(s), 64)]`,
fuelled (the wrapper `pyChunks64` supplies sufficient fuel). -/
def pyChunks64F : Nat → List Nat → List (List Nat)
  | _, [] => []
  | 0, _ :: _ => []
  | fuel + 1, c :: rest => ((c :: rest).take 64) :: pyChunks64F fuel ((c :: rest).drop 64)

/-- Cut a byte string into 64-byte slices. -/
def pyChunks64 (l : List Nat) : List (List Nat) := pyChunks64F l.length l

/-- ASCII bytes of `-----BEGIN PGP MESSAGE-----`. -/
def beginMarker : List Nat := strBytes "-----BEGIN PGP MESSAGE-----"

/-- ASCII bytes of `-----END PGP MESSAGE-----`. -/
def endMarker : List Nat := strBytes "-----END PGP MESSAGE-----"

/-- ASCII armoring as performed by both scenario builders: base64, wrapped at
64 characters per line, between the BEGIN/END markers, with a blank line after
the opening marker (`"-----BEGIN PGP MESSAGE-----\n\n" + "\n".join(lines) +
"\n-----END PGP MESSAGE-----"`). -/
def armor (pkt : List Nat) : List Nat :=
  beginMarker ++ [10, 10] ++ joinNl (pyChunks64 (b64encode pkt)) ++ [10] ++ endMarker

/-- Remove a leading marker if present. -/
def dropPre (marker s : List Nat) : List Nat :=
  if marker <+: s then s.drop marker.length else s

/-- Remove a trailing marker if present. -/
def dropSuf (marker s : List Nat) : List Nat :=
  if marker <:+ s then s.take (s.length - marker.length) else s

/-- Drop every newline byte. -/
def stripNl (l : List Nat) : List Nat := l.filter (fun c => c != 10)

/-- Modelled from the spec: un-armoring ("stripping markers, joining lines,
base64-decoding"); no un-armoring code exists in the source.  Strips the
BEGIN/END markers, joins the base64 lines by removing newlines, and
base64-decodes. -/
def unarmor (s : List Nat) : List Nat :=
  b64decode (stripNl (dropSuf endMarker (dropPre beginMarker s)))

/-- New-format OpenPGP body-length encoding, exactly as computed by the
scenario code (`>> 8` and `& 0xFF` written as division and remainder on `Nat`):
one byte below 192, two bytes `((n-192)>>8)+192, (n-192)&0xFF` below 8384,
otherwise `0xFF` plus `struct.pack('>I', n)` (which raises `struct.error`,
modelled `none`, for `n ≥ 2^32`). -/
def encLen (n : Nat) : Option (List Nat) :=
  if n < 192 then some [n]
  else if n < 8384 then some [(n - 192) / 256 + 192, (n - 192) % 256]
  else if n < 2 ^ 32 then
    some [255, n / 2 ^ 24 % 256, n / 2 ^ 16 % 256, n / 2 ^ 8 % 256, n % 256]
  else none

/-- `buildPacket(filler)`: a new-format packet header for tag 18
(first byte `0xC0 | 18`), the body-length encoding of
`bodyLength = 1 + len(filler)`, the version byte 1, then the filler. -/
def buildPacket (filler : List Nat) : Option (List Nat) :=
  let body := 1 :: filler
  (encLen body.length).map (fun lenBytes => (0xC0 ||| 18) :: lenBytes ++ body)

/-- Modelled from the spec: RFC 4880 §4.2.2 re-decoding of a new-format
body-length encoding (the spec's "re-decoding that header"); no decoder exists
in the source.  Returns the declared body length and the bytes after the
length field. -/
def decodeLen : List Nat → Option (Nat × List Nat)
  | [] => none
  | b :: rest =>
    if b < 192 then some (b, rest)
    else if b < 224 then
      match rest with
      | b2 :: r => some ((b - 192) * 256 + b2 + 192, r)
      | [] => none
    else if b = 255 then
      match rest with
      | b1 :: b2 :: b3 :: b4 :: r => some (((b1 * 256 + b2) * 256 + b3) * 256 + b4, r)
      | _ => none
    else none

/-- Little-endian decimal digits of `n`, fuelled (any fuel `≥ n` is
sufficient). -/
def decDigitsF : Nat → Nat → List Nat
  | _, 0 => []
  | 0, _ + 1 => []
  | fuel + 1, n + 1 => (n + 1) % 10 :: decDigitsF fuel ((n + 1) / 10)

/-- Big-endian decimal digits of `n` (empty for 0). -/
def decDigits (n : Nat) : List Nat := (decDigitsF n n).reverse

/-- Python `f"A{n:04d}"` as ASCII bytes: the letter `A` followed by the
decimal rendering of `n` left-padded with `0` to at least four digits
(larger numbers keep all their digits — the format never truncates). -/
def pyTag (n : Nat) : List Nat :=
  let ds := decDigits n
  65 :: (List.replicate (4 - ds.length) 0 ++ ds).map (fun d => 48 + d)

/-- The client side of one IMAP connection: `self.tag_counter`,
`self.buffer`, the pending `recv` results, and the transcript of every byte
the client has written to the transport. -/
structure IMAPState where
  tagCounter : Nat
  buffer : List Nat
  chunks : List (List Nat)
  written : List Nat
deriving DecidableEq

/-- `IMAPClient._send_command`: increment the tag counter, format the fresh
tag, write `"<tag> <command>\r\n"`, return the tag. -/
def sendCommand (cmd : List Nat) (s : IMAPState) : List Nat × IMAPState :=
  let n := s.tagCounter + 1
  let tag := pyTag n
  (tag, ⟨n, s.buffer, s.chunks, s.written ++ tag ++ [32] ++ cmd ++ [13, 10]⟩)

/-- Python `line.split(" ", 2)` step: the bytes before the first space, and
(some) the bytes after it. -/
def splitSp : List Nat → List Nat × Option (List Nat)
  | [] => ([], none)
  | c :: r =>
    if c = 32 then ([], some r)
    else
      let p := splitSp r
      (c :: p.1, p.2)

/-- Python `line.split(" ", 2)`. -/
def splitSpace2 (line : List Nat) : List (List Nat) :=
  let p0 := splitSp line
  match p0.2 with
  | none => [p0.1]
  | some r0 =>
    let p1 := splitSp r0
    match p1.2 with
    | none => [p0.1, p1.1]
    | some r1 => [p0.1, p1.1, r1]

/-- `parts[1]` of the tagged line: the status token (`OK`/`NO`/`BAD`). -/
def statusOf (line : List Nat) : List Nat := (splitSpace2 line).getD 1 []

/-- `parts[2] if len(parts) > 2 else ""`: the trailing text of the tagged
line. -/
def msgOf (line : List Nat) : List Nat := (splitSpace2 line).getD 2 []

/-- Total byte count of the pending chunks. -/
def chunksLen (cs : List (List Nat)) : Nat := (cs.map List.length).sum

/-- `IMAPClient._read_response`'s loop, fuelled (`readResponse` supplies
sufficient fuel: each iteration consumes at least two stream bytes).  Reads
lines until one starts with `"<tag> "`; that line is parsed into status and
message, every earlier line is accumulated as untagged data.  `none` models
the connection closing before the tagged line (`RuntimeError`). -/
def readRespGo (tag : List Nat) : Nat → IMAPState → List (List Nat) →
    Option ((List Nat × List Nat × List (List Nat)) × IMAPState)
  | 0, _, _ => none
  | fuel + 1, s, acc =>
    match imapReadLine s.buffer s.chunks with
    | none => none
    | some (line, b2, cs2) =>
      if tag ++ [32] <+: line then
        some ((statusOf line, msgOf line, acc), ⟨s.tagCounter, b2, cs2, s.written⟩)
      else readRespGo tag fuel ⟨s.tagCounter, b2, cs2, s.written⟩ (acc ++ [line])

/-- `IMAPClient._read_response`. -/
def readResponse (tag : List Nat) (s : IMAPState) :
    Option ((List Nat × List Nat × List (List Nat)) × IMAPState) :=
  readRespGo tag (s.buffer.length + chunksLen s.chunks + 1) s []

/-- Python nonnegative `int(token)`: all-digit tokens parse, anything else
raises `ValueError` (modelled `none`; signs and non-ASCII digits do not occur
in the untagged IMAP lines this is applied to). -/
def pyParseNat (t : List Nat) : Option Nat :=
  if t ≠ [] ∧ ∀ c ∈ t, 48 ≤ c ∧ c ≤ 57 then
    some (t.foldl (fun a c => 10 * a + (c - 48)) 0)
  else none

/-- Python `str.split()` (split on whitespace runs), fuelled (`pySplit`
supplies sufficient fuel). -/
def pySplitF : Nat → List Nat → List (List Nat)
  | _, [] => []
  | 0, _ :: _ => []
  | fuel + 1, c :: r =>
    if isWs c then pySplitF fuel r
    else
      ((c :: r).takeWhile (fun x => !isWs x))
        :: pySplitF fuel ((c :: r).dropWhile (fun x => !isWs x))

/-- Python `str.split()` on a byte string. -/
def pySplit (l : List Nat) : List (List Nat) := pySplitF l.length l

/-- `int(line.split()[1])` — the value that `select` stores under
`'exists'` for one untagged line; `none` models `IndexError`/`ValueError`. -/
def exValue (line : List Nat) : Option Nat := ((pySplit line).get? 1).bind pyParseNat

/-- The `select` result-dictionary loop: fold over the untagged lines,
overwriting `result['exists']` on every line containing `EXISTS`.  The outer
`none` models a raised `IndexError`/`ValueError`; `some none` is a dictionary
without the `'exists'` key; `some (some n)` has `result['exists'] = n`. -/
def extractExists (untagged : List (List Nat)) : Option (Option Nat) :=
  untagged.foldl
    (fun acc line =>
      match acc with
      | none => none
      | some cur =>
        if strBytes "EXISTS" <:+: line then
          match exValue line with
          | some n => some (some n)
          | none => none
        else some cur)
    (some none)

/-- `IMAPClient.select`: send `SELECT "<mailbox>"`, read the tagged response,
raise (`none`) unless the status is `OK`, then build the result dictionary
from the untagged lines.  The transcript of written bytes is preserved even on
the error paths (the bytes were sent before the exception propagates). -/
def imapSelect (mailbox : List Nat) (s : IMAPState) : Option (Option Nat) × IMAPState :=
  let p := sendCommand (strBytes "SELECT \"" ++ mailbox ++ strBytes "\"") s
  match readResponse p.1 p.2 with
  | none => (none, p.2)
  | some ((status, _, untagged), s2) =>
    if status = strBytes "OK" then
      match extractExists untagged with
      | none => (none, s2)
      | some d => (some d, s2)
    else (none, s2)

/-- `IMAPClient.idle_start`: send `IDLE`, read exactly one line, require it to
start with `+` (otherwise `RuntimeError("IDLE not accepted")`, modelled
`none`); returns the pending tag. -/
def idleStart (s : IMAPState) : Option (List Nat) × IMAPState :=
  let p := sendCommand (strBytes "IDLE") s
  match imapReadLine p.2.buffer p.2.chunks with
  | none => (none, p.2)
  | some (line, b2, cs2) =>
    if [43] <+: line then (some p.1, ⟨p.2.tagCounter, b2, cs2, p.2.written⟩)
    else (none, ⟨p.2.tagCounter, b2, cs2, p.2.written⟩)

/-- The tags assigned by a sequence of commands issued on one connection. -/
def runTags : List (List Nat) → IMAPState → List (List Nat)
  | [], _ => []
  | c :: cs, s =>
    let p := sendCommand c s
    p.1 :: runTags cs p.2

/-- The SMTP client side of one connection: the unread server byte stream and
the transcript of every byte written to the transport. -/
structure SMTPState where
  input : List Nat
  written : List Nat
deriving DecidableEq

/-- `SMTPClient.data`: write `DATA\r\n`, read the reply; unless it starts with
`354` return `False` without writing anything further.  On `354`, write the
message, a CRLF unless the message already ends with one, and the `.\r\n`
terminator, then read the final reply and return whether it starts with `250`.
`none` models a reply read that never completes. -/
def smtpData (msg : List Nat) (s : SMTPState) : Option (Bool × SMTPState) :=
  let w1 := s.written ++ strBytes "DATA" ++ [13, 10]
  match smtpReadResponse s.input with
  | none => none
  | some (ls, rest) =>
    if strBytes "354" <+: joinNl ls then
      let pad : List Nat := if [13, 10] <:+ msg then [] else [13, 10]
      let w2 := w1 ++ msg ++ pad ++ [46, 13, 10]
      match smtpReadResponse rest with
      | none => none
      | some (ls2, rest2) => some ((strBytes "250" <+: joinNl ls2), ⟨rest2, w2⟩)
    else some (false, ⟨rest, w1⟩)

/-- Python `", ".join(addrs)` on byte strings. -/
def joinComma : List (List Nat) → List Nat
  | [] => []
  | [a] => a
  | a :: b :: rest => a ++ strBytes ", " ++ joinComma (b :: rest)

/-- `generate_fake_pgp_encrypted_message(sender, recipients, subject, body)`
from the IDLE scenario: a fixed 21-byte SEIPD body (version byte plus twenty
zero bytes), the new-format header branches, ASCII armor, and the
`multipart/encrypted` MIME skeleton with a fixed boundary.  The `body`
argument is accepted but never used, exactly as in the source.  The function
is total: no input is rejected. -/
def generateFakeMsg (sender : List Nat) (recipients : List (List Nat))
    (subject : List Nat) (body : List Nat) : List Nat :=
  let seipdBody : List Nat := 1 :: List.replicate 20 0
  let n := seipdBody.length
  let header : List Nat :=
    if n < 192 then [0xC0 ||| 18, n]
    else if n < 8384 then [0xC0 ||| 18, (n - 192) / 256 + 192, (n - 192) % 256]
    else [0xC0 ||| 18, 255, n / 2 ^ 24 % 256, n / 2 ^ 16 % 256, n / 2 ^ 8 % 256, n % 256]
  let armored := armor (header ++ seipdBody)
  strBytes "From: " ++ sender ++ strBytes "\nTo: " ++ joinComma recipients
    ++ strBytes "\nSubject: " ++ subject
    ++ strBytes "\nMIME-Version: 1.0\nContent-Type: multipart/encrypted; protocol=\"application/pgp-encrypted\"; boundary=\"=-fake-pgp-boundary-12345\"\n\n--=-fake-pgp-boundary-12345\nContent-Type: application/pgp-encrypted\n\nVersion: 1\n\n--=-fake-pgp-boundary-12345\nContent-Type: application/octet-stream\n\n"
    ++ armored ++ strBytes "\n--=-fake-pgp-boundary-12345--\n"

/-- Total byte count of a list of pending network arrivals. -/
def evBytes (evs : List (ℚ × List Nat)) : Nat := (evs.map (fun e => e.2.length)).sum

/-- `IMAPClient._read_line_timeout(t)` under real-time socket semantics.
`evs` lists the future data arrivals on the socket as (absolute arrival time,
bytes) pairs; `now` is the current time.  Each `recv` waits for the next
arrival but at most `t` seconds — the socket timeout bounds each `recv`
individually, not the whole line read.  Returns `(some line, buffer, now,
rest)` when a CRLF-terminated line is assembled, or `(none, …)` when a `recv`
times out (`socket.timeout`), leaving any partial data buffered. -/
def readLineT (t : ℚ) (b : List Nat) (now : ℚ) :
    List (ℚ × List Nat) → Option (List Nat) × (List Nat × ℚ × List (ℚ × List Nat))
  | [] =>
    match splitCRLF b with
    | some (l, r) => (some l, (r, now, []))
    | none => (none, (b, now + t, []))
  | (te, bs) :: rest =>
    match splitCRLF b with
    | some (l, r) => (some l, (r, now, (te, bs) :: rest))
    | none =>
      if te ≤ now + t then readLineT t (b ++ bs) (max now te) rest
      else (none, (b, now + t, (te, bs) :: rest))

theorem splitCRLF_some : ∀ {b l r : List Nat}, splitCRLF b = some (l, r) →
    b = l ++ 13 :: 10 :: r ∧ splitCRLF l = none
  | [], _, _, h => by simp [splitCRLF] at h
  | [c], _, _, h => by simp [splitCRLF] at h
  | c1 :: c2 :: rest, l, r, h => by
    rw [splitCRLF] at h
    by_cases hc : c1 = 13 ∧ c2 = 10
    · rw [if_pos hc] at h
      simp only [Option.some.injEq, Prod.mk.injEq] at h
      obtain ⟨rfl, rfl⟩ := h
      exact ⟨by simp [hc.1, hc.2], rfl⟩
    · rw [if_neg hc] at h
      match h2 : splitCRLF (c2 :: rest) with
      | none => rw [h2] at h; simp at h
      | some (l2, r2) =>
        rw [h2] at h
        simp only [Option.map_some', Option.some.injEq, Prod.mk.injEq] at h
        obtain ⟨hl, rfl⟩ := h
        obtain ⟨hb, hnone⟩ := splitCRLF_some h2
        subst hl
        refine ⟨by simp [hb], ?_⟩
        cases l2 with
        | nil => simp [splitCRLF]
        | cons d ds =>
          have hd : d = c2 := by
            have := hb
            simp at this
            exact this.1.symm
          rw [splitCRLF, if_neg (by rw [hd]; exact hc), hnone]
          rfl

theorem splitCRLF_app : ∀ {l : List Nat} (r : List Nat), splitCRLF l = none →
    splitCRLF (l ++ 13 :: 10 :: r) = some (l, r)
  | [], r, _ => by simp [splitCRLF]
  | [c], r, h => by
    have hc : ¬(c = 13 ∧ 13 = 10) := by omega
    simp only [List.cons_append, List.nil_append, splitCRLF, if_neg hc]
    simp [splitCRLF]
  | c1 :: c2 :: rest, r, h => by
    rw [splitCRLF] at h
    by_cases hc : c1 = 13 ∧ c2 = 10
    · rw [if_pos hc] at h; simp at h
    · rw [if_neg hc] at h
      have h2 : splitCRLF (c2 :: rest) = none := by
        match h3 : splitCRLF (c2 :: rest) with
        | none => rfl
        | some p => rw [h3] at h; simp at h
      have ih := splitCRLF_app (l := c2 :: rest) r h2
      show splitCRLF (c1 :: c2 :: (rest ++ 13 :: 10 :: r)) = _
      rw [splitCRLF, if_neg hc]
      rw [show c2 :: (rest ++ 13 :: 10 :: r) = (c2 :: rest) ++ 13 :: 10 :: r from rfl, ih]
      rfl

theorem splitCRLF_app_some : ∀ {l a r : List Nat} (x : List Nat), splitCRLF l = some (a, r) →
    splitCRLF (l ++ x) = some (a, r ++ x)
  | [], _, _, x, h => by simp [splitCRLF] at h
  | [c], _, _, x, h => by simp [splitCRLF] at h
  | c1 :: c2 :: rest, a, r, x, h => by
    rw [splitCRLF] at h
    by_cases hc : c1 = 13 ∧ c2 = 10
    · rw [if_pos hc] at h
      simp only [Option.some.injEq, Prod.mk.injEq] at h
      obtain ⟨rfl, rfl⟩ := h
      show splitCRLF (c1 :: (c2 :: (rest ++ x))) = _
      rw [splitCRLF, if_pos hc]
    · rw [if_neg hc] at h
      match h3 : splitCRLF (c2 :: rest) with
      | none => rw [h3] at h; simp at h
      | some (l2, r2) =>
        rw [h3] at h
        simp only [Option.map_some', Option.some.injEq, Prod.mk.injEq] at h
        obtain ⟨rfl, rfl⟩ := h
        have ih := splitCRLF_app_some (l := c2 :: rest) x h3
        show splitCRLF (c1 :: (c2 :: (rest ++ x))) = _
        rw [splitCRLF, if_neg hc]
        rw [show c2 :: (rest ++ x) = (c2 :: rest) ++ x from rfl, ih]
        rfl

theorem splitCRLF_none_of_append {a b : List Nat} (h : splitCRLF (a ++ b) = none) :
    splitCRLF a = none := by
  match h3 : splitCRLF a with
  | none => rfl
  | some (l, r) => rw [splitCRLF_app_some b h3] at h; simp at h

/-- Effect of one `_read_line_timeout` call on the measure used to show the
IDLE wait loop terminates: either nothing happened except time advancing by
exactly the timeout (a pure `socket.timeout` with no data consumed), or the
total of pending-event bytes, pending-event count and buffered bytes strictly
decreased.  Time never goes backwards. -/
theorem readLineT_meas (t : ℚ) (ht : 0 ≤ t) (b : List Nat) (now : ℚ) :
    ∀ evs : List (ℚ × List Nat),
    now ≤ (readLineT t b now evs).2.2.1 ∧
    (((readLineT t b now evs).1 = none ∧ (readLineT t b now evs).2.1 = b ∧
        (readLineT t b now evs).2.2.2 = evs ∧ (readLineT t b now evs).2.2.1 = now + t) ∨
      evBytes (readLineT t b now evs).2.2.2 + (readLineT t b now evs).2.2.2.length +
          (readLineT t b now evs).2.1.length < evBytes evs + evs.length + b.length)
  | [] => by
    rw [readLineT]
    match h3 : splitCRLF b with
    | some (l, r) =>
      obtain ⟨hb, -⟩ := splitCRLF_some h3
      refine ⟨le_refl _, Or.inr ?_⟩
      simp [hb]
      omega
    | none => exact ⟨le_add_of_nonneg_right ht, Or.inl ⟨rfl, rfl, rfl, rfl⟩⟩
  | (te, bs) :: rest => by
    rw [readLineT]
    match h3 : splitCRLF b with
    | some (l, r) =>
      obtain ⟨hb, -⟩ := splitCRLF_some h3
      refine ⟨le_refl _, Or.inr ?_⟩
      simp [hb]
      omega
    | none =>
      by_cases hte : te ≤ now + t
      · rw [if_pos hte]
        have ih := readLineT_meas t ht (b ++ bs) (max now te) rest
        refine ⟨le_trans (le_max_left _ _) ih.1, Or.inr ?_⟩
        rcases ih.2 with ⟨-, h1, h2, -⟩ | hlt
        · rw [h1, h2]
          simp [evBytes]
          omega
        · simp only [evBytes, List.map_cons, List.sum_cons, List.length_cons,
            List.length_append] at hlt ⊢
          omega
      · rw [if_neg hte]
        exact ⟨le_add_of_nonneg_right ht, Or.inl ⟨rfl, rfl, rfl, rfl⟩⟩

/-- `IMAPClient.idle_wait`'s loop: while `now < deadline`, poll with
`_read_line_timeout(min(remaining, 1.0))`, collect every line observed, stop
early on a line containing `EXISTS`, ignore `socket.timeout` and re-check the
deadline.  Returns the collected lines and the final connection state
(buffer, time, pending arrivals). -/
def idleWaitGo (deadline : ℚ) (b : List Nat) (now : ℚ) (evs : List (ℚ × List Nat))
    (acc : List (List Nat)) : List (List Nat) × (List Nat × ℚ × List (ℚ × List Nat)) :=
  if h1 : now < deadline then
    if h2 : deadline - now ≤ 0 then (acc, (b, now, evs))
    else
      match h3 : readLineT (min (deadline - now) 1) b now evs with
      | (some line, (b2, n2, e2)) =>
        if strBytes "EXISTS" <:+: line then (acc ++ [line], (b2, n2, e2))
        else idleWaitGo deadline b2 n2 e2 (acc ++ [line])
      | (none, (b2, n2, e2)) => idleWaitGo deadline b2 n2 e2 acc
  else (acc, (b, now, evs))
termination_by evBytes evs + evs.length + b.length + (⌈deadline - now⌉).toNat
decreasing_by
  · have hpos : (0 : ℚ) < deadline - now := by
      by_contra hcon
      exact h2 (by linarith)
    have ht : (0 : ℚ) ≤ min (deadline - now) 1 := le_min (le_of_lt hpos) (by norm_num)
    have hm := readLineT_meas (min (deadline - now) 1) ht b now evs
    rw [h3] at hm
    rcases hm with ⟨hmono, hcase | hlt⟩
    · exact absurd hcase.1 (by simp)
    · have hce : ⌈deadline - n2⌉ ≤ ⌈deadline - now⌉ :=
        Int.ceil_le_ceil (by simp at hmono; linarith)
      have := Int.toNat_le_toNat hce
      simp only at hlt
      omega
  · have hpos : (0 : ℚ) < deadline - now := by
      by_contra hcon
      exact h2 (by linarith)
    have ht : (0 : ℚ) ≤ min (deadline - now) 1 := le_min (le_of_lt hpos) (by norm_num)
    have hm := readLineT_meas (min (deadline - now) 1) ht b now evs
    rw [h3] at hm
    rcases hm with ⟨hmono, hcase | hlt⟩
    · obtain ⟨-, hb2, he2, hn2⟩ := hcase
      simp only at hb2 he2 hn2
      subst hb2; subst he2
      have hstep : (⌈deadline - n2⌉).toNat < (⌈deadline - now⌉).toNat := by
        rw [hn2]
        have harith : deadline - (now + min (deadline - now) 1) =
            deadline - now - min (deadline - now) 1 := by ring
        rcases le_total (deadline - now) 1 with hr | hr
        · have hmin : min (deadline - now) 1 = deadline - now := min_eq_left hr
          rw [harith, hmin]
          have : ⌈(0 : ℚ)⌉ = 0 := by norm_num
          simp only [sub_self, this]
          have : 0 < ⌈deadline - now⌉ := Int.ceil_pos.mpr hpos
          omega
        · have hmin : min (deadline - now) 1 = 1 := min_eq_right hr
          rw [harith, hmin, Int.ceil_sub_one]
          have h1lt : (1 : ℤ) ≤ ⌈deadline - now⌉ := by
            have : 0 < ⌈deadline - now⌉ := Int.ceil_pos.mpr hpos
            omega
          omega
      omega
    · have hce : ⌈deadline - n2⌉ ≤ ⌈deadline - now⌉ :=
        Int.ceil_le_ceil (by simp at hmono; linarith)
      have := Int.toNat_le_toNat hce
      simp only at hlt
      omega

/-- `IMAPClient.idle_wait(timeout)`: `deadline = time.time() + timeout`, then
the poll loop. -/
def idleWait (timeout : ℚ) (b : List Nat) (now : ℚ) (evs : List (ℚ × List Nat)) :
    List (List Nat) × (List Nat × ℚ × List (ℚ × List Nat)) :=
  idleWaitGo (now + timeout) b now evs []

/-- C1: for every filler byte sequence (with `bodyLength = 1 + len(filler)`
representable in the 4-byte branch, as the claim's `struct.pack('>I', …)`
presupposes), `buildPacket` emits first header byte `0xD2 = 0xC0 | 18`
followed by the three-branch body-length encoding, and re-decoding that
header recovers exactly `bodyLength` as the declared body length, with the
body (version byte plus filler) following it. -/
theorem buildPacket_header_roundtrip (filler : List Nat)
    (h : 1 + filler.length < 2 ^ 32) :
    ∃ lenBytes, buildPacket filler = some (0xD2 :: (lenBytes ++ 1 :: filler)) ∧
      decodeLen (lenBytes ++ 1 :: filler) = some (1 + filler.length, 1 :: filler) := by
  have hd2 : (0xC0 ||| 18 : Nat) = 0xD2 := by decide
  simp only [buildPacket, encLen, List.length_cons, hd2]
  by_cases h1 : filler.length + 1 < 192
  · refine ⟨[filler.length + 1], ?_, ?_⟩
    · rw [if_pos h1]; rfl
    · show decodeLen ((filler.length + 1) :: 1 :: filler) = _
      rw [decodeLen, if_pos h1]
      simp only [Option.some.injEq, Prod.mk.injEq]
      exact ⟨by omega, by trivial⟩
  · by_cases h2 : filler.length + 1 < 8384
    · refine ⟨[(filler.length + 1 - 192) / 256 + 192, (filler.length + 1 - 192) % 256], ?_, ?_⟩
      · rw [if_neg h1, if_pos h2]; rfl
      · show decodeLen ((((filler.length + 1 - 192) / 256) + 192) ::
            ((filler.length + 1 - 192) % 256) :: 1 :: filler) = _
        rw [decodeLen, if_neg (by omega), if_pos (by omega)]
        simp only [Option.some.injEq, Prod.mk.injEq]
        exact ⟨by omega, by trivial⟩
    · have h3 : filler.length + 1 < 2 ^ 32 := by omega
      refine ⟨[255, (filler.length + 1) / 2 ^ 24 % 256, (filler.length + 1) / 2 ^ 16 % 256,
          (filler.length + 1) / 2 ^ 8 % 256, (filler.length + 1) % 256], ?_, ?_⟩
      · rw [if_neg h1, if_neg h2, if_pos h3]; rfl
      · show decodeLen (255 :: ((filler.length + 1) / 2 ^ 24 % 256) ::
            ((filler.length + 1) / 2 ^ 16 % 256) :: ((filler.length + 1) / 2 ^ 8 % 256) ::
            ((filler.length + 1) % 256) :: 1 :: filler) = _
        rw [decodeLen, if_neg (by omega), if_neg (by omega), if_pos rfl]
        simp only [Option.some.injEq, Prod.mk.injEq]
        exact ⟨by omega, by trivial⟩

/-- C1 witness: the two-byte branch exercised at `bodyLength = 192`. -/
theorem buildPacket_header_roundtrip_wit :
    1 + (List.replicate 191 0).length < 2 ^ 32 ∧
    ∃ lenBytes, buildPacket (List.replicate 191 0) =
        some (0xD2 :: (lenBytes ++ 1 :: List.replicate 191 0)) ∧
      decodeLen (lenBytes ++ 1 :: List.replicate 191 0) =
        some (1 + (List.replicate 191 0).length, 1 :: List.replicate 191 0) :=
  ⟨by simp only [List.length_replicate]; norm_num,
    buildPacket_header_roundtrip (List.replicate 191 0)
      (by simp only [List.length_replicate]; norm_num)⟩

theorem b64val_b64char : ∀ i : Nat, i < 64 → b64val (b64char i) = i := by decide

theorem b64char_props (i : Nat) : b64char i ≠ 61 ∧ b64char i ≠ 10 := by
  unfold b64char
  split_ifs <;> omega

/-- Base64 decoding inverts base64 encoding on byte sequences. -/
theorem b64_roundtrip : ∀ l : List Nat, (∀ b ∈ l, b < 256) → b64decode (b64encode l) = l
  | [], _ => rfl
  | [b1], h => by
    have hb1 : b1 < 256 := h b1 (by simp)
    rw [b64encode, b64decode, if_pos rfl]
    rw [b64val_b64char _ (by omega), b64val_b64char _ (by omega)]
    simp only [List.cons.injEq, and_true]
    omega
  | [b1, b2], h => by
    have hb1 : b1 < 256 := h b1 (by simp)
    have hb2 : b2 < 256 := h b2 (by simp)
    rw [b64encode, b64decode, if_neg (b64char_props _).1, if_pos rfl]
    rw [b64val_b64char _ (by omega), b64val_b64char _ (by omega), b64val_b64char _ (by omega)]
    simp only [List.cons.injEq, and_true]
    exact ⟨by omega, by omega⟩
  | b1 :: b2 :: b3 :: rest, h => by
    have hb1 : b1 < 256 := h b1 (by simp)
    have hb2 : b2 < 256 := h b2 (by simp)
    have hb3 : b3 < 256 := h b3 (by simp)
    have ih := b64_roundtrip rest (fun b hb => h b (by simp [hb]))
    rw [b64encode, b64decode, if_neg (b64char_props _).1, if_neg (b64char_props _).1]
    rw [b64val_b64char _ (by omega), b64val_b64char _ (by omega),
      b64val_b64char _ (by omega), b64val_b64char _ (by omega)]
    simp only [List.cons.injEq]
    exact ⟨by omega, by omega, by omega, ih⟩

theorem b64encode_ne_10 : ∀ (l : List Nat), ∀ c ∈ b64encode l, c ≠ 10
  | [] => by simp [b64encode]
  | [b1] => by
    rw [b64encode]
    intro c hc
    simp only [List.mem_cons, List.mem_singleton] at hc
    rcases hc with rfl | rfl | rfl | rfl | h
    · exact (b64char_props _).2
    · exact (b64char_props _).2
    · omega
    · omega
    · simp at h
  | [b1, b2] => by
    rw [b64encode]
    intro c hc
    simp only [List.mem_cons, List.mem_singleton] at hc
    rcases hc with rfl | rfl | rfl | rfl | h
    · exact (b64char_props _).2
    · exact (b64char_props _).2
    · exact (b64char_props _).2
    · omega
    · simp at h
  | b1 :: b2 :: b3 :: rest => by
    rw [b64encode]
    intro c hc
    simp only [List.mem_cons] at hc
    rcases hc with rfl | rfl | rfl | rfl | h
    · exact (b64char_props _).2
    · exact (b64char_props _).2
    · exact (b64char_props _).2
    · exact (b64char_props _).2
    · exact b64encode_ne_10 rest c h

theorem pyChunks64F_join : ∀ (fuel : Nat) (l : List Nat), l.length ≤ fuel →
    (pyChunks64F fuel l).flatten = l
  | _, [], _ => by simp [pyChunks64F]
  | 0, c :: rest, h => by simp at h
  | fuel + 1, c :: rest, h => by
    rw [pyChunks64F]
    have hlen : ((c :: rest).drop 64).length ≤ fuel := by
      simp only [List.length_drop, List.length_cons] at h ⊢
      omega
    rw [List.flatten_cons, pyChunks64F_join fuel _ hlen, List.take_append_drop]

theorem pyChunks64F_mem : ∀ (fuel : Nat) (l p : List Nat), p ∈ pyChunks64F fuel l →
    ∀ c ∈ p, c ∈ l
  | _, [], p, hp => by simp [pyChunks64F] at hp
  | 0, c :: rest, p, hp => by simp [pyChunks64F] at hp
  | fuel + 1, c :: rest, p, hp => by
    rw [pyChunks64F] at hp
    simp only [List.mem_cons] at hp
    rcases hp with rfl | hp
    · exact fun x hx => List.take_subset _ _ hx
    · exact fun x hx => List.drop_subset _ _ (pyChunks64F_mem fuel _ p hp x hx)

theorem stripNl_no10 {l : List Nat} (h : ∀ c ∈ l, c ≠ 10) : stripNl l = l := by
  rw [stripNl, List.filter_eq_self]
  intro a ha
  simpa using h a ha

theorem stripNl_joinNl : ∀ parts : List (List Nat),
    (∀ p ∈ parts, ∀ c ∈ p, c ≠ 10) → stripNl (joinNl parts) = parts.flatten
  | [], _ => rfl
  | [p], h => by
    rw [joinNl]
    have : [p].flatten = p := by simp
    rw [this]
    exact stripNl_no10 (h p (by simp))
  | p :: q :: rest, h => by
    rw [joinNl]
    show stripNl (p ++ 10 :: joinNl (q :: rest)) = _
    rw [stripNl, List.filter_append]
    have h1 : List.filter (fun c => c != 10) p = p :=
      stripNl_no10 (h p (by simp))
    have h2 : List.filter (fun c => c != 10) (10 :: joinNl (q :: rest)) =
        stripNl (joinNl (q :: rest)) := by
      rw [List.filter_cons]
      simp only [bne_self_eq_false, Bool.false_eq_true, if_false]
      rfl
    rw [h1, h2, stripNl_joinNl (q :: rest) (fun x hx => h x (by simp [List.mem_cons] at hx ⊢; tauto))]
    simp

/-- C5: armoring — base64, 64-character lines, BEGIN/END markers with a blank
line after the opening marker — followed by un-armoring (strip markers, join
lines, base64-decode) yields exactly the original packet bytes, for every
byte sequence (bytes are < 256). -/
theorem armor_unarmor_roundtrip (pkt : List Nat) (h : ∀ b ∈ pkt, b < 256) :
    unarmor (armor pkt) = pkt := by
  rw [armor, unarmor]
  set J := joinNl (pyChunks64 (b64encode pkt)) with hJdef
  have e1 : beginMarker ++ [10, 10] ++ J ++ [10] ++ endMarker =
      beginMarker ++ ([10, 10] ++ J ++ [10] ++ endMarker) := by simp [List.append_assoc]
  rw [e1, dropPre, if_pos (List.prefix_append _ _), List.drop_left]
  have e2 : [10, 10] ++ J ++ [10] ++ endMarker = ([10, 10] ++ J ++ [10]) ++ endMarker := by
    simp [List.append_assoc]
  rw [e2, dropSuf, if_pos (List.suffix_append _ _)]
  have e3 : (([10, 10] ++ J ++ [10]) ++ endMarker).length - endMarker.length =
      ([10, 10] ++ J ++ [10]).length := by simp; omega
  rw [e3, List.take_left]
  have hmem : ∀ p ∈ pyChunks64 (b64encode pkt), ∀ c ∈ p, c ≠ 10 :=
    fun p hp c hc => b64encode_ne_10 pkt c (pyChunks64F_mem _ _ p hp c hc)
  have e4 : stripNl ([10, 10] ++ J ++ [10]) = b64encode pkt := by
    rw [show ([10, 10] ++ J ++ [10] : List Nat) = [10, 10] ++ (J ++ [10]) by
      simp [List.append_assoc]]
    rw [stripNl, List.filter_append, List.filter_append]
    have f1 : List.filter (fun c => c != 10) [10, 10] = ([] : List Nat) := rfl
    have f2 : List.filter (fun c => c != 10) [10] = ([] : List Nat) := rfl
    rw [f1, f2]
    simp only [List.nil_append, List.append_nil]
    show stripNl J = _
    rw [hJdef]
    exact (stripNl_joinNl _ hmem).trans
      (by rw [pyChunks64, pyChunks64F_join _ _ (le_refl _)])
  rw [e4]
  exact b64_roundtrip pkt h

/-- C5 witness: a concrete packet including zero bytes. -/
theorem armor_unarmor_roundtrip_wit :
    (∀ b ∈ [0, 0, 0, 0, 171, 255], b < 256) ∧
      unarmor (armor [0, 0, 0, 0, 171, 255]) = [0, 0, 0, 0, 171, 255] :=
  ⟨by decide, armor_unarmor_roundtrip [0, 0, 0, 0, 171, 255] (by decide)⟩

theorem imapReadLine_buffered (b : List Nat) (cs : List (List Nat)) {l r : List Nat}
    (h : splitCRLF b = some (l, r)) : imapReadLine b cs = some (l, r, cs) := by
  cases cs with
  | nil => rw [imapReadLine, h]
  | cons c cs => rw [imapReadLine, h]

theorem imapReadLine_sound : ∀ (cs : List (List Nat)) (b l b2 : List Nat)
    (cs2 : List (List Nat)), imapReadLine b cs = some (l, b2, cs2) →
    b ++ cs.flatten = l ++ 13 :: 10 :: (b2 ++ cs2.flatten) ∧ splitCRLF l = none
  | [], b, l, b2, cs2, h => by
    rw [imapReadLine] at h
    match h3 : splitCRLF b with
    | some (a, r) =>
      rw [h3] at h
      simp only [Option.some.injEq, Prod.mk.injEq] at h
      obtain ⟨rfl, rfl, rfl⟩ := h
      obtain ⟨hb, hn⟩ := splitCRLF_some h3
      simpa [hb] using hn
    | none => rw [h3] at h; simp at h
  | c :: cs, b, l, b2, cs2, h => by
    rw [imapReadLine] at h
    match h3 : splitCRLF b with
    | some (a, r) =>
      rw [h3] at h
      simp only [Option.some.injEq, Prod.mk.injEq] at h
      obtain ⟨rfl, rfl, rfl⟩ := h
      obtain ⟨hb, hn⟩ := splitCRLF_some h3
      refine ⟨?_, hn⟩
      rw [hb]
      simp [List.append_assoc]
    | none =>
      rw [h3] at h
      by_cases hc : c = []
      · rw [if_pos hc] at h; simp at h
      · rw [if_neg hc] at h
        obtain ⟨hcons, hn⟩ := imapReadLine_sound cs (b ++ c) l b2 cs2 h
        refine ⟨?_, hn⟩
        rw [List.flatten_cons, ← List.append_assoc, hcons]

theorem imapReadLine_closed : ∀ (cs : List (List Nat)) (b : List Nat),
    splitCRLF (b ++ cs.flatten) = none → imapReadLine b cs = none
  | [], b, h => by
    rw [List.flatten_nil, List.append_nil] at h
    rw [imapReadLine, h]
  | c :: cs, b, h => by
    rw [List.flatten_cons, ← List.append_assoc] at h
    have hb : splitCRLF b = none :=
      splitCRLF_none_of_append (a := b) (b := c ++ cs.flatten) (by rwa [← List.append_assoc])
    rw [imapReadLine, hb]
    by_cases hc : c = []
    · rw [if_pos hc]
    · rw [if_neg hc]
      exact imapReadLine_closed cs (b ++ c) h

theorem takeLineSMTP_noCRLF : ∀ {input : List Nat}, splitCRLF input = none →
    takeLineSMTP input = (input, [])
  | [], _ => rfl
  | [c], _ => rfl
  | c1 :: c2 :: rest, h => by
    rw [splitCRLF] at h
    by_cases hc : c1 = 13 ∧ c2 = 10
    · rw [if_pos hc] at h; simp at h
    · rw [if_neg hc] at h
      have h2 : splitCRLF (c2 :: rest) = none := by
        match h3 : splitCRLF (c2 :: rest) with
        | none => rfl
        | some p => rw [h3] at h; simp at h
      rw [takeLineSMTP, if_neg hc, takeLineSMTP_noCRLF h2]

theorem smtpGo_nil : ∀ fuel : Nat, smtpGo fuel [] = none := by
  intro fuel
  cases fuel <;> rfl

theorem smtp_reader_on_closed_stream (input : List Nat) (hne : input ≠ [])
    (h : splitCRLF input = none) :
    (smtpFinal (pyStrip input) → smtpReadResponse input = some ([pyStrip input], [])) ∧
    (¬ smtpFinal (pyStrip input) → smtpReadResponse input = none) := by
  match input, hne with
  | c :: rest, _ =>
    have hTL := takeLineSMTP_noCRLF h
    constructor
    · intro hfin
      rw [smtpReadResponse]
      show smtpGo (rest.length + 1 + 1) (c :: rest) = _
      rw [smtpGo]
      simp only [hTL]
      rw [if_pos hfin]
    · intro hfin
      rw [smtpReadResponse]
      show smtpGo (rest.length + 1 + 1) (c :: rest) = none
      rw [smtpGo]
      simp only [hTL]
      rw [if_neg hfin]
      simp only [smtpGo_nil]

/-- C4 counterexample: a stream that the peer closes right after `250 ok`,
before any line terminator was seen.  The claim requires the reader to fail
with a connection-closed error; the SMTP response reader instead accepts the
partial data as the reply. -/
theorem smtp_reader_no_closed_error :
    smtpReadResponse (strBytes "250 ok") = some ([strBytes "250 ok"], []) := by decide

/-- C4 (amended): both readers return the next line delimited by the line
terminator and leave all bytes past it unread for the next call; the IMAP
reader fails with `Connection closed` when the peer closes before a
terminator, but the SMTP response reader does not — on a stream closed before
a terminator it treats the partial bytes as a received line (returning it as
the reply when it looks like a final line, and spinning forever otherwise). -/
theorem readLine_contract :
    (∀ (b : List Nat) (cs : List (List Nat)) (l r : List Nat),
        splitCRLF b = some (l, r) → imapReadLine b cs = some (l, r, cs)) ∧
    (∀ (cs : List (List Nat)) (b l b2 : List Nat) (cs2 : List (List Nat)),
        imapReadLine b cs = some (l, b2, cs2) →
          b ++ cs.flatten = l ++ 13 :: 10 :: (b2 ++ cs2.flatten) ∧ splitCRLF l = none) ∧
    (∀ (cs : List (List Nat)) (b : List Nat),
        splitCRLF (b ++ cs.flatten) = none → imapReadLine b cs = none) ∧
    (∀ input : List Nat, input ≠ [] → splitCRLF input = none →
        (smtpFinal (pyStrip input) → smtpReadResponse input = some ([pyStrip input], [])) ∧
        (¬ smtpFinal (pyStrip input) → smtpReadResponse input = none)) :=
  ⟨fun b cs l r h => imapReadLine_buffered b cs h,
   imapReadLine_sound, imapReadLine_closed, smtp_reader_on_closed_stream⟩

/-- C4 witness: the buffered-line conjunct at a concrete stream. -/
theorem readLine_contract_wit :
    splitCRLF [97, 13, 10, 98] = some ([97], [98]) ∧
      imapReadLine [97, 13, 10, 98] [[99]] = some ([97], [98], [[99]]) :=
  ⟨by decide, readLine_contract.1 [97, 13, 10, 98] [[99]] [97] [98] (by decide)⟩

theorem readRespGo_written (tag : List Nat) : ∀ (fuel : Nat) (s : IMAPState)
    (acc : List (List Nat)) (resp : List Nat × List Nat × List (List Nat)) (s2 : IMAPState),
    readRespGo tag fuel s acc = some (resp, s2) → s2.written = s.written
  | 0, s, acc, resp, s2, h => by simp [readRespGo] at h
  | fuel + 1, s, acc, resp, s2, h => by
    rw [readRespGo] at h
    match h3 : imapReadLine s.buffer s.chunks with
    | none => rw [h3] at h; simp at h
    | some (line, b2, cs2) =>
      simp only [h3] at h
      by_cases hp : tag ++ [32] <+: line
      · rw [if_pos hp] at h
        simp only [Option.some.injEq, Prod.mk.injEq] at h
        obtain ⟨-, rfl⟩ := h
        rfl
      · rw [if_neg hp] at h
        exact readRespGo_written tag fuel ⟨s.tagCounter, b2, cs2, s.written⟩
          (acc ++ [line]) resp s2 h

/-- C2 counterexample: a connection on which `idle_start` has succeeded (the
server's continuation line was read) and on which `select` is then invoked.
The claim requires the client to reject the call before any bytes reach the
transport; instead the written transcript grows — the `SELECT` command line is
written to the wire. -/
theorem idling_select_writes_to_wire :
    (idleStart ⟨0, strBytes "+ idling\r\nA0002 OK done\r\n", [], []⟩).1.isSome = true ∧
    (imapSelect (strBytes "INBOX")
        (idleStart ⟨0, strBytes "+ idling\r\nA0002 OK done\r\n", [], []⟩).2).2.written ≠
      ((idleStart ⟨0, strBytes "+ idling\r\nA0002 OK done\r\n", [], []⟩).2).written := by
  constructor
  · decide
  · decide

/-- C2 (amended): the client keeps no Idling state and performs no client-side
rejection: whatever state the connection is in — in particular right after a
successful `idleStart` — invoking `select` unconditionally writes the fresh
tag and the `SELECT` command line to the transport before reading anything;
protocol discipline while idling is left entirely to the caller. -/
theorem select_always_writes (mailbox : List Nat) (s : IMAPState) :
    (imapSelect mailbox s).2.written =
      s.written ++ pyTag (s.tagCounter + 1) ++ [32] ++
        (strBytes "SELECT \"" ++ mailbox ++ strBytes "\"") ++ [13, 10] := by
  rw [imapSelect]
  match h3 : readResponse (sendCommand (strBytes "SELECT \"" ++ mailbox ++ strBytes "\"") s).1
      (sendCommand (strBytes "SELECT \"" ++ mailbox ++ strBytes "\"") s).2 with
  | none =>
    show (sendCommand (strBytes "SELECT \"" ++ mailbox ++ strBytes "\"") s).2.written = _
    simp [sendCommand, List.append_assoc]
  | some ((status, msg, untagged), s2) =>
    have hw : s2.written = (sendCommand (strBytes "SELECT \"" ++ mailbox ++ strBytes "\"") s).2.written :=
      readRespGo_written _ _ _ _ _ _ h3
    show (if status = strBytes "OK" then
        match extractExists untagged with
        | none => ((none : Option (Option Nat)), s2)
        | some d => (some d, s2)
      else (none, s2)).2.written = _
    by_cases hok : status = strBytes "OK"
    · rw [if_pos hok]
      match extractExists untagged with
      | none => show s2.written = _; rw [hw]; simp [sendCommand, List.append_assoc]
      | some d => show s2.written = _; rw [hw]; simp [sendCommand, List.append_assoc]
    · rw [if_neg hok]
      show s2.written = _
      rw [hw]
      simp [sendCommand, List.append_assoc]

theorem foldl_dec_replicate : ∀ k : Nat,
    List.foldl (fun x d => 10 * x + d) 0 (List.replicate k 0) = 0
  | 0 => rfl
  | k + 1 => by
    rw [List.replicate_succ, List.foldl_cons]
    simpa using foldl_dec_replicate k

theorem decDigitsF_val : ∀ (fuel n : Nat), n ≤ fuel → ∀ a : Nat,
    List.foldl (fun x d => 10 * x + d) a (decDigitsF fuel n).reverse =
      a * 10 ^ (decDigitsF fuel n).length + n
  | fuel, 0, _, a => by
    cases fuel <;> simp [decDigitsF]
  | 0, n + 1, h, a => by omega
  | fuel + 1, n + 1, h, a => by
    rw [decDigitsF]
    have hlt : (n + 1) / 10 < n + 1 := Nat.div_lt_self (by omega) (by omega)
    have hle : (n + 1) / 10 ≤ fuel := by omega
    rw [List.reverse_cons, List.foldl_append, decDigitsF_val fuel ((n + 1) / 10) hle a]
    simp only [List.foldl_cons, List.foldl_nil, List.length_cons]
    have hpow : a * 10 ^ ((decDigitsF fuel ((n + 1) / 10)).length + 1) =
        a * 10 ^ (decDigitsF fuel ((n + 1) / 10)).length * 10 := by ring
    rw [hpow]
    generalize a * 10 ^ (decDigitsF fuel ((n + 1) / 10)).length = X
    omega

theorem padded_digits_val (k n : Nat) :
    List.foldl (fun x d => 10 * x + d) 0 (List.replicate k 0 ++ decDigits n) = n := by
  rw [List.foldl_append, foldl_dec_replicate, decDigits,
    decDigitsF_val n n (le_refl n) 0]
  simp

theorem pyTag_inj : ∀ m n : Nat, pyTag m = pyTag n → m = n := by
  intro m n h
  rw [pyTag, pyTag] at h
  simp only [List.cons.injEq, true_and] at h
  have h2 : List.replicate (4 - (decDigits m).length) 0 ++ decDigits m =
      List.replicate (4 - (decDigits n).length) 0 ++ decDigits n := by
    have hinj : Function.Injective (fun d : Nat => 48 + d) := fun a b hab => by
      simp only at hab
      omega
    exact List.map_injective_iff.mpr hinj h
  have := congrArg (List.foldl (fun x d => 10 * x + d) 0) h2
  rwa [padded_digits_val, padded_digits_val] at this

theorem runTags_formula : ∀ (cmds : List (List Nat)) (s : IMAPState),
    runTags cmds s = (List.range cmds.length).map (fun i => pyTag (s.tagCounter + 1 + i))
  | [], s => rfl
  | c :: cs, s => by
    rw [runTags, runTags_formula cs (sendCommand c s).2]
    show pyTag (s.tagCounter + 1) ::
        List.map (fun i => pyTag (s.tagCounter + 1 + 1 + i)) (List.range cs.length) = _
    simp only [List.length_cons, List.range_succ_eq_map, List.map_cons, List.map_map]
    refine List.cons_eq_cons.mpr ⟨by rw [Nat.add_zero], ?_⟩
    apply List.map_congr_left
    intro i _
    show pyTag (s.tagCounter + 1 + 1 + i) = pyTag (s.tagCounter + 1 + (i + 1))
    congr 1
    omega

/-- The byte stream consisting of the given CRLF-terminated lines followed by
further bytes. -/
def linesCat : List (List Nat) → List Nat → List Nat
  | [], r => r
  | l :: ls, r => l ++ 13 :: 10 :: linesCat ls r

theorem linesCat_len : ∀ (ls : List (List Nat)) (r : List Nat),
    ls.length ≤ (linesCat ls r).length
  | [], r => by simp [linesCat]
  | l :: ls, r => by
    rw [linesCat]
    simp only [List.length_append, List.length_cons]
    have := linesCat_len ls r
    omega

theorem readRespGo_lines : ∀ (pre : List (List Nat)) (fuel : Nat)
    (tag tagline restB : List Nat) (tc : Nat) (w : List Nat) (acc : List (List Nat)),
    pre.length + 1 ≤ fuel →
    (∀ l ∈ pre, splitCRLF l = none ∧ ¬(tag ++ [32] <+: l)) →
    splitCRLF tagline = none → tag ++ [32] <+: tagline →
    readRespGo tag fuel ⟨tc, linesCat (pre ++ [tagline]) restB, [], w⟩ acc =
      some ((statusOf tagline, msgOf tagline, acc ++ pre), ⟨tc, restB, [], w⟩)
  | [], fuel, tag, tagline, restB, tc, w, acc, hfuel, hpre, hnone, hp => by
    match fuel, hfuel with
    | f + 1, _ =>
      have hsplit : splitCRLF (tagline ++ 13 :: 10 :: restB) = some (tagline, restB) :=
        splitCRLF_app restB hnone
      show readRespGo tag (f + 1) ⟨tc, tagline ++ 13 :: 10 :: restB, [], w⟩ acc = _
      rw [readRespGo]
      simp only [imapReadLine, hsplit, if_pos hp, List.append_nil]
  | p :: pre, fuel, tag, tagline, restB, tc, w, acc, hfuel, hpre, hnone, hp => by
    match fuel, hfuel with
    | f + 1, hf =>
      have hsplit : splitCRLF (p ++ 13 :: 10 :: linesCat (pre ++ [tagline]) restB) =
          some (p, linesCat (pre ++ [tagline]) restB) :=
        splitCRLF_app _ (hpre p (by simp)).1
      show readRespGo tag (f + 1)
          ⟨tc, p ++ 13 :: 10 :: linesCat (pre ++ [tagline]) restB, [], w⟩ acc = _
      rw [readRespGo]
      simp only [imapReadLine, hsplit, if_neg (hpre p (by simp)).2]
      rw [readRespGo_lines pre f tag tagline restB tc w (acc ++ [p])
        (by simp only [List.length_cons] at hf; omega)
        (fun l hl => hpre l (by simp [hl])) hnone hp]
      simp

/-- C3: on one connection every operation assigns a fresh tag from the
per-connection incremented counter; the tag formatting is injective, so no tag
is ever reused within the connection's lifetime (any sequence of commands gets
pairwise-distinct tags); and `_read_response` takes the result only from the
first line beginning with `"<tag> "`, returning all earlier lines as untagged
data — so the returned response corresponds to exactly the tag the caller
issued. -/
theorem tag_correlation :
    (∀ m n : Nat, pyTag m = pyTag n → m = n) ∧
    (∀ (cmd : List Nat) (s : IMAPState),
        (sendCommand cmd s).2.tagCounter = s.tagCounter + 1 ∧
        (sendCommand cmd s).1 = pyTag (s.tagCounter + 1)) ∧
    (∀ (cmds : List (List Nat)) (s : IMAPState), (runTags cmds s).Pairwise (· ≠ ·)) ∧
    (∀ (tag tagline restB : List Nat) (pre : List (List Nat)) (tc : Nat) (w : List Nat),
        (∀ l ∈ pre, splitCRLF l = none ∧ ¬(tag ++ [32] <+: l)) →
        splitCRLF tagline = none → tag ++ [32] <+: tagline →
        readResponse tag ⟨tc, linesCat (pre ++ [tagline]) restB, [], w⟩ =
          some ((statusOf tagline, msgOf tagline, pre), ⟨tc, restB, [], w⟩)) := by
  refine ⟨pyTag_inj, fun cmd s => ⟨rfl, rfl⟩, ?_, ?_⟩
  · intro cmds s
    rw [runTags_formula, List.pairwise_map]
    exact (List.pairwise_lt_range cmds.length).imp fun {i j} hlt heq => by
      have := pyTag_inj _ _ heq
      omega
  · intro tag tagline restB pre tc w hpre hnone hp
    rw [readResponse]
    have hfuel : pre.length + 1 ≤
        (linesCat (pre ++ [tagline]) restB).length + chunksLen [] + 1 := by
      have h1 := linesCat_len (pre ++ [tagline]) restB
      simp only [List.length_append, List.length_singleton] at h1
      omega
    have hmain := readRespGo_lines pre
      ((linesCat (pre ++ [tagline]) restB).length + chunksLen [] + 1)
      tag tagline restB tc w [] hfuel hpre hnone hp
    simpa using hmain

/-- C3 witness: the correlation conjunct at a concrete exchange with one
untagged line before the tagged `OK` line. -/
theorem tag_correlation_wit :
    (∀ l ∈ [strBytes "* 1 EXISTS"],
        splitCRLF l = none ∧ ¬(strBytes "A1" ++ [32] <+: l)) ∧
    readResponse (strBytes "A1")
        ⟨5, linesCat ([strBytes "* 1 EXISTS"] ++ [strBytes "A1 OK done"]) [88], [], [7]⟩ =
      some ((statusOf (strBytes "A1 OK done"), msgOf (strBytes "A1 OK done"),
        [strBytes "* 1 EXISTS"]), ⟨5, [88], [], [7]⟩) :=
  ⟨by decide, tag_correlation.2.2.2 (strBytes "A1") (strBytes "A1 OK done") [88]
    [strBytes "* 1 EXISTS"] 5 [7] (by decide) (by decide) (by decide)⟩

/-- C7: `data` first sends `DATA` and waits for the reply; if it does not
start with `354` the operation fails (returns `False`) with nothing but the
`DATA` command line ever written — the message bytes never reach the
transport.  If `354` is received, the message and terminator are written and
the operation succeeds exactly when the final reply starts with `250`. -/
theorem smtpData_contract :
    (∀ (msg : List Nat) (s : SMTPState) (ls : List (List Nat)) (rest : List Nat),
        smtpReadResponse s.input = some (ls, rest) →
        ¬(strBytes "354" <+: joinNl ls) →
        smtpData msg s = some (false, ⟨rest, s.written ++ strBytes "DATA" ++ [13, 10]⟩)) ∧
    (∀ (msg : List Nat) (s : SMTPState) (ls ls2 : List (List Nat)) (rest rest2 : List Nat),
        smtpReadResponse s.input = some (ls, rest) →
        strBytes "354" <+: joinNl ls →
        smtpReadResponse rest = some (ls2, rest2) →
        smtpData msg s = some (decide (strBytes "250" <+: joinNl ls2),
          ⟨rest2, s.written ++ strBytes "DATA" ++ [13, 10] ++ msg ++
            (if [13, 10] <:+ msg then [] else [13, 10]) ++ [46, 13, 10]⟩)) := by
  constructor
  · intro msg s ls rest h1 h354
    rw [smtpData]
    simp only [h1]
    rw [if_neg h354]
  · intro msg s ls ls2 rest rest2 h1 h354 h2
    rw [smtpData]
    simp only [h1]
    rw [if_pos h354]
    simp only [h2]

/-- C7 witness: a rejected `DATA` (`500` instead of `354`): failure is
reported and only the `DATA` line was written. -/
theorem smtpData_contract_wit :
    smtpReadResponse (strBytes "500 nope\r\n") = some ([strBytes "500 nope"], []) ∧
    ¬(strBytes "354" <+: joinNl [strBytes "500 nope"]) ∧
    smtpData [72, 73] ⟨strBytes "500 nope\r\n", [9]⟩ =
      some (false, ⟨[], [9] ++ strBytes "DATA" ++ [13, 10]⟩) :=
  ⟨by decide, by decide,
    smtpData_contract.1 [72, 73] ⟨strBytes "500 nope\r\n", [9]⟩ [strBytes "500 nope"] []
      (by decide) (by decide)⟩

/-- C9: after the `354` reply the bytes written are exactly the message, then
a CRLF if and only if the message does not already end with one, then the
`.\r\n` terminator — so the dot terminator always starts at the beginning of
a line. -/
theorem smtpData_dot_on_own_line :
    ∀ (msg : List Nat) (s : SMTPState) (ls ls2 : List (List Nat)) (rest rest2 : List Nat),
      smtpReadResponse s.input = some (ls, rest) →
      strBytes "354" <+: joinNl ls →
      smtpReadResponse rest = some (ls2, rest2) →
      ∃ b, smtpData msg s = some (b,
        ⟨rest2, (s.written ++ strBytes "DATA" ++ [13, 10]) ++
          (msg ++ (if [13, 10] <:+ msg then [] else [13, 10]) ++ [46, 13, 10])⟩) := by
  intro msg s ls ls2 rest rest2 h1 h354 h2
  refine ⟨decide (strBytes "250" <+: joinNl ls2), ?_⟩
  rw [smtpData]
  simp only [h1]
  rw [if_pos h354]
  simp only [h2]
  simp [List.append_assoc]

/-- C9 witness: a caller-terminated and a non-terminated message both end with
the dot terminator at the start of a line; shown here for a message that does
not end in CRLF, so the padding CRLF is inserted. -/
theorem smtpData_dot_on_own_line_wit :
    smtpReadResponse (strBytes "354 go\r\n250 ok\r\n") = some ([strBytes "354 go"], strBytes "250 ok\r\n") ∧
    (strBytes "354" <+: joinNl [strBytes "354 go"]) ∧
    ∃ b, smtpData [72] ⟨strBytes "354 go\r\n250 ok\r\n", []⟩ =
      some (b, ⟨[], ([] ++ strBytes "DATA" ++ [13, 10]) ++
        ([72] ++ (if [13, 10] <:+ [72] then [] else [13, 10]) ++ [46, 13, 10])⟩) :=
  ⟨by decide, by decide,
    smtpData_dot_on_own_line [72] ⟨strBytes "354 go\r\n250 ok\r\n", []⟩
      [strBytes "354 go"] [strBytes "250 ok"] (strBytes "250 ok\r\n") []
      (by decide) (by decide) (by decide)⟩

theorem prefix_extend {u v w : List Nat} (h : u <+: v) : u <+: v ++ w :=
  h.trans (List.prefix_append v w)

/-- C8 counterexample: the builder called with an empty recipient list does
not fail — it produces a complete message whose `To:` header is empty.  (The
claim says an empty recipient list is rejected instead of producing a
message.) -/
theorem builder_accepts_empty_recipients :
    strBytes "From: a@b\nTo: \nSubject: s\nMIME-Version: 1.0" <+:
      generateFakeMsg (strBytes "a@b") [] (strBytes "s") (strBytes "x") := by decide

/-- C8 (amended): the builder is total — it has no failure modes at all; in
particular an empty recipient list is accepted, producing a message whose
`To:` header is the comma-join of the recipients, which is empty for the
empty list. -/
theorem builder_never_fails (sender subject body : List Nat) (recipients : List (List Nat)) :
    (strBytes "From: " ++ sender ++ strBytes "\nTo: " ++ joinComma recipients ++
        strBytes "\nSubject: " ++ subject <+:
      generateFakeMsg sender recipients subject body) ∧
    joinComma [] = [] := by
  constructor
  · simp only [generateFakeMsg]
    exact prefix_extend (prefix_extend (prefix_extend (List.prefix_rfl)))
  · rfl

theorem extractExists_formula : ∀ u : List (List Nat),
    (∀ l ∈ u, strBytes "EXISTS" <:+: l → (exValue l).isSome = true) →
    extractExists u =
      some (((u.filter (fun l => decide (strBytes "EXISTS" <:+: l))).getLast?).bind exValue) := by
  intro u
  induction u using List.reverseRecOn with
  | nil => intro _; rfl
  | append_singleton init l ih =>
    intro h
    rw [extractExists, List.foldl_append, List.foldl_cons, List.foldl_nil]
    rw [show List.foldl _ (some (none : Option Nat)) init = extractExists init from rfl]
    rw [ih (fun x hx => h x (by simp [hx]))]
    by_cases hl : strBytes "EXISTS" <:+: l
    · obtain ⟨k, hk⟩ := Option.isSome_iff_exists.mp (h l (by simp) hl)
      simp [hl, hk, List.filter_append]
    · simp [hl, List.filter_append]

theorem imapSelect_formula (s : IMAPState) (mailbox msg : List Nat)
    (untagged : List (List Nat)) (s2 : IMAPState)
    (hr : readResponse (sendCommand (strBytes "SELECT \"" ++ mailbox ++ strBytes "\"") s).1
        (sendCommand (strBytes "SELECT \"" ++ mailbox ++ strBytes "\"") s).2 =
      some ((strBytes "OK", msg, untagged), s2))
    (hparse : ∀ l ∈ untagged, strBytes "EXISTS" <:+: l → (exValue l).isSome = true) :
    imapSelect mailbox s =
      (some (((untagged.filter (fun l => decide (strBytes "EXISTS" <:+: l))).getLast?).bind
        exValue), s2) := by
  rw [imapSelect]
  simp only [hr, eq_self_iff_true, if_true]
  rw [extractExists_formula untagged hparse]

/-- C10: when `SELECT` completes with status `OK`, the result dictionary's
`'exists'` entry is the parsed second whitespace-token of the last untagged
line containing `EXISTS` (the fold overwrites earlier matches); when no
untagged line contains `EXISTS`, the dictionary simply has no `'exists'`
key (`some none`) rather than failing, and the caller's
`result.get('exists', 0)` default yields 0. -/
theorem select_exists_parsing :
    (∀ (s : IMAPState) (mailbox msg : List Nat) (untagged : List (List Nat)) (s2 : IMAPState),
        readResponse (sendCommand (strBytes "SELECT \"" ++ mailbox ++ strBytes "\"") s).1
            (sendCommand (strBytes "SELECT \"" ++ mailbox ++ strBytes "\"") s).2 =
          some ((strBytes "OK", msg, untagged), s2) →
        (∀ l ∈ untagged, strBytes "EXISTS" <:+: l → (exValue l).isSome = true) →
        imapSelect mailbox s =
          (some (((untagged.filter (fun l => decide (strBytes "EXISTS" <:+: l))).getLast?).bind
            exValue), s2)) ∧
    (∀ (s : IMAPState) (mailbox msg : List Nat) (untagged : List (List Nat)) (s2 : IMAPState),
        readResponse (sendCommand (strBytes "SELECT \"" ++ mailbox ++ strBytes "\"") s).1
            (sendCommand (strBytes "SELECT \"" ++ mailbox ++ strBytes "\"") s).2 =
          some ((strBytes "OK", msg, untagged), s2) →
        (∀ l ∈ untagged, ¬(strBytes "EXISTS" <:+: l)) →
        imapSelect mailbox s = (some none, s2) ∧ (none : Option Nat).getD 0 = 0) := by
  refine ⟨imapSelect_formula, ?_⟩
  intro s mailbox msg untagged s2 hr hno
  have h1 := imapSelect_formula s mailbox msg untagged s2 hr
    (fun l hl hex => absurd hex (hno l hl))
  have h2 : untagged.filter (fun l => decide (strBytes "EXISTS" <:+: l)) = [] := by
    rw [List.filter_eq_nil_iff]
    intro a ha
    simpa using hno a ha
  rw [h2] at h1
  exact ⟨by simpa using h1, rfl⟩

/-- C10 witness: one untagged `* 3 EXISTS` line before the tagged `OK`. -/
theorem select_exists_parsing_wit :
    readResponse
        (sendCommand (strBytes "SELECT \"" ++ strBytes "INBOX" ++ strBytes "\"")
          ⟨0, strBytes "* 3 EXISTS\r\nA0001 OK done\r\n", [], []⟩).1
        (sendCommand (strBytes "SELECT \"" ++ strBytes "INBOX" ++ strBytes "\"")
          ⟨0, strBytes "* 3 EXISTS\r\nA0001 OK done\r\n", [], []⟩).2 =
      some ((strBytes "OK", strBytes "done", [strBytes "* 3 EXISTS"]),
        ⟨1, [], [], strBytes "A0001 SELECT \"INBOX\"" ++ [13, 10]⟩) ∧
    imapSelect (strBytes "INBOX") ⟨0, strBytes "* 3 EXISTS\r\nA0001 OK done\r\n", [], []⟩ =
      (some ((([strBytes "* 3 EXISTS"].filter
          (fun l => decide (strBytes "EXISTS" <:+: l))).getLast?).bind exValue),
        ⟨1, [], [], strBytes "A0001 SELECT \"INBOX\"" ++ [13, 10]⟩) :=
  ⟨by decide, select_exists_parsing.1 _ _ (strBytes "done") [strBytes "* 3 EXISTS"] _
    (by decide) (by decide)⟩

/-- C6 (amended): `idleWait` returns the collected lines as soon as either a
line containing `EXISTS` is seen (it is then the last collected line) or the
deadline has been reached; every poll uses the slice `min(remaining, 1.0)` and
no poll starts once `now ≥ deadline` — but a poll whose line arrives in
several chunks may finish after the deadline, so the final time is only
guaranteed to be past the deadline on the no-notification exit, not bounded
by it. -/
theorem idleWait_exit :
    (∀ (deadline : ℚ) (b : List Nat) (now : ℚ) (evs : List (ℚ × List Nat))
        (acc : List (List Nat)),
      (∃ l, (idleWaitGo deadline b now evs acc).1.getLast? = some l ∧
          strBytes "EXISTS" <:+: l) ∨
        deadline ≤ (idleWaitGo deadline b now evs acc).2.2.1) ∧
    (∀ (timeout : ℚ) (b : List Nat) (now : ℚ) (evs : List (ℚ × List Nat)),
      (∃ l, (idleWait timeout b now evs).1.getLast? = some l ∧
          strBytes "EXISTS" <:+: l) ∨
        now + timeout ≤ (idleWait timeout b now evs).2.2.1) := by
  have main : ∀ (M : Nat) (deadline : ℚ) (b : List Nat) (now : ℚ)
      (evs : List (ℚ × List Nat)) (acc : List (List Nat)),
      evBytes evs + evs.length + b.length + (⌈deadline - now⌉).toNat ≤ M →
      (∃ l, (idleWaitGo deadline b now evs acc).1.getLast? = some l ∧
          strBytes "EXISTS" <:+: l) ∨
        deadline ≤ (idleWaitGo deadline b now evs acc).2.2.1 := by
    intro M
    induction M using Nat.strong_induction_on with
    | _ M ih =>
      intro deadline b now evs acc hM
      rw [idleWaitGo]
      by_cases h1 : now < deadline
      · rw [dif_pos h1]
        by_cases h2 : deadline - now ≤ 0
        · rw [dif_pos h2]
          right
          linarith
        · rw [dif_neg h2]
          have hpos : (0 : ℚ) < deadline - now := by
            by_contra hcon
            exact h2 (by linarith)
          have ht : (0 : ℚ) ≤ min (deadline - now) 1 := le_min (le_of_lt hpos) (by norm_num)
          have hm := readLineT_meas (min (deadline - now) 1) ht b now evs
          split
          next line b2 n2 e2 heq =>
            rw [heq] at hm
            by_cases hex : strBytes "EXISTS" <:+: line
            · rw [if_pos hex]
              exact Or.inl ⟨line, by simp, hex⟩
            · rw [if_neg hex]
              rcases hm with ⟨hmono, hcase | hlt⟩
              · exact absurd hcase.1 (by simp)
              · have hce : ⌈deadline - n2⌉ ≤ ⌈deadline - now⌉ :=
                  Int.ceil_le_ceil (by simp only at hmono; linarith)
                have hcn := Int.toNat_le_toNat hce
                simp only at hlt
                exact ih (evBytes e2 + e2.length + b2.length + (⌈deadline - n2⌉).toNat)
                  (by omega) deadline b2 n2 e2 (acc ++ [line]) (le_refl _)
          next b2 n2 e2 heq =>
            rw [heq] at hm
            rcases hm with ⟨hmono, hcase | hlt⟩
            · obtain ⟨-, hb2, he2, hn2⟩ := hcase
              simp only at hb2 he2 hn2
              have hstep : (⌈deadline - n2⌉).toNat < (⌈deadline - now⌉).toNat := by
                rw [hn2]
                have harith : deadline - (now + min (deadline - now) 1) =
                    deadline - now - min (deadline - now) 1 := by ring
                rcases le_total (deadline - now) 1 with hr | hr
                · have hmin : min (deadline - now) 1 = deadline - now := min_eq_left hr
                  rw [harith, hmin]
                  have hz : ⌈(0 : ℚ)⌉ = 0 := by norm_num
                  simp only [sub_self, hz]
                  have := Int.ceil_pos.mpr hpos
                  omega
                · have hmin : min (deadline - now) 1 = 1 := min_eq_right hr
                  rw [harith, hmin, Int.ceil_sub_one]
                  have hone : 0 < ⌈deadline - now⌉ := Int.ceil_pos.mpr hpos
                  omega
              refine ih (evBytes e2 + e2.length + b2.length + (⌈deadline - n2⌉).toNat)
                ?_ deadline b2 n2 e2 acc (le_refl _)
              rw [hb2, he2]
              omega
            · have hce : ⌈deadline - n2⌉ ≤ ⌈deadline - now⌉ :=
                Int.ceil_le_ceil (by simp only at hmono; linarith)
              have hcn := Int.toNat_le_toNat hce
              simp only at hlt
              exact ih (evBytes e2 + e2.length + b2.length + (⌈deadline - n2⌉).toNat)
                (by omega) deadline b2 n2 e2 acc (le_refl _)
      · rw [dif_neg h1]
        right
        exact le_of_not_lt h1
  constructor
  · intro deadline b now evs acc
    exact main (evBytes evs + evs.length + b.length + (⌈deadline - now⌉).toNat)
      deadline b now evs acc (le_refl _)
  · intro timeout b now evs
    rw [idleWait]
    exact main (evBytes evs + evs.length + b.length + (⌈now + timeout - now⌉).toNat)
      (now + timeout) b now evs [] (le_refl _)

/-- C6 counterexample: `idleWait` with a 2-second timeout, fed a
`* 1 EXISTS` line that arrives in three chunks at 0.9, 1.8 and 2.7 seconds.
Each `recv` stays within its `min(remaining, 1.0)` socket timeout, so the
single `_read_line_timeout` call only returns at `t = 2.7` — the loop blocks
0.7 seconds past the caller's 2-second total timeout, refuting "never blocks
past the given timeout in total". -/
theorem idleWait_blocks_past_timeout :
    (idleWait 2 [] 0 [((9 : ℚ)/10, [42, 32, 49, 32]), ((9 : ℚ)/5, [69, 88, 73, 83]),
        ((27 : ℚ)/10, [84, 83, 13, 10])]).2.2.1 = 27/10 ∧ (2 : ℚ) < 27/10 := by
  have hsp1 : splitCRLF ([] : List Nat) = none := rfl
  have hsp2 : splitCRLF [42, 32, 49, 32] = none := by decide
  have hsp3 : splitCRLF [42, 32, 49, 32, 69, 88, 73, 83] = none := by decide
  have hsp4 : splitCRLF [42, 32, 49, 32, 69, 88, 73, 83, 84, 83, 13, 10] =
      some ([42, 32, 49, 32, 69, 88, 73, 83, 84, 83], []) := by decide
  have hr : readLineT (min ((0 : ℚ) + 2 - 0) 1) [] 0
      [((9 : ℚ)/10, [42, 32, 49, 32]), ((9 : ℚ)/5, [69, 88, 73, 83]),
        ((27 : ℚ)/10, [84, 83, 13, 10])] =
      (some [42, 32, 49, 32, 69, 88, 73, 83, 84, 83], ([], 27/10, [])) := by
    have hmin : min ((0 : ℚ) + 2 - 0) 1 = 1 := by norm_num
    rw [hmin]
    rw [readLineT, hsp1, if_pos (by norm_num : (9 : ℚ)/10 ≤ 0 + 1)]
    rw [show ([] : List Nat) ++ [42, 32, 49, 32] = [42, 32, 49, 32] from rfl]
    rw [show max (0 : ℚ) (9/10) = 9/10 from by rw [max_eq_right]; norm_num]
    rw [readLineT, hsp2, if_pos (by norm_num : (9 : ℚ)/5 ≤ 9/10 + 1)]
    rw [show [42, 32, 49, 32] ++ [69, 88, 73, 83] = [42, 32, 49, 32, 69, 88, 73, 83] from rfl]
    rw [show max ((9 : ℚ)/10) (9/5) = 9/5 from by rw [max_eq_right]; norm_num]
    rw [readLineT, hsp3, if_pos (by norm_num : (27 : ℚ)/10 ≤ 9/5 + 1)]
    rw [show [42, 32, 49, 32, 69, 88, 73, 83] ++ [84, 83, 13, 10] =
      [42, 32, 49, 32, 69, 88, 73, 83, 84, 83, 13, 10] from rfl]
    rw [show max ((9 : ℚ)/5) (27/10) = 27/10 from by rw [max_eq_right]; norm_num]
    rw [readLineT, hsp4]
  constructor
  · rw [idleWait, idleWaitGo]
    rw [dif_pos (by norm_num : (0 : ℚ) < 0 + 2)]
    rw [dif_neg (by norm_num : ¬((0 : ℚ) + 2 - 0 ≤ 0))]
    split
    next line b2 n2 e2 heq =>
      rw [hr] at heq
      simp only [Prod.mk.injEq, Option.some.injEq] at heq
      obtain ⟨hline, hb2, hn2, he2⟩ := heq
      rw [if_pos (by rw [← hline]; decide :
        strBytes "EXISTS" <:+: line)]
      simpa using hn2.symm
    next b2 n2 e2 heq =>
      rw [hr] at heq
      simp at heq
  · norm_num

end Madmail
